import Mathlib

/-!
Verification of the scene-partitioning engine of
`release/scripts/mgear/shifter/game_tools_fbx/fbx_batch.py`.

The scene graph is shallowly embedded.  A DAG path is the list of its
name segments (the Python code carries the string `"|A|B"`; we carry
`["A", "B"]`, which is the same data as long as segments are non-empty
and contain no pipe character).  A Maya object name as it occurs in
configuration data or selection lists is either a full path (string
starting with a pipe) or a partial/short name; the two compare unequal
as strings even when they denote the same node, which the embedding
keeps by making them different constructors.

Maya API behaviour that the code relies on is modelled as follows:
* `MSelectionList.add(name)` raises when nothing matches; otherwise all
  matches are added and `getDagPath(0)` returns the first.
  A partial name matches every node whose path ends with its segments.
* `cmds.listRelatives(x, ad=True, fullPath=True)` returns `None` when
  `x` has no descendants (modelled as the empty list guarded by the
  caller), otherwise the full paths of all descendants; on a scene
  whose path set is not closed under prefixes (a corrupt graph) it is
  modelled as the enumeration of all scene paths strictly extending
  `x`.  `cmds.ls(None, ...)` raises a `TypeError`.
* `cmds.listRelatives(x, p=True, fullPath=True)` returns the parent
  path when that node exists in the scene and `None` otherwise (for a
  top-level node the parent is the world and `None` is returned).
* `cmds.listRelatives(x, parent=True, type="joint")` without
  `fullPath` returns the minimal unique partial name of the parent
  when the parent exists and is a joint.
* `cmds.delete(x)` removes the node and its whole subtree and raises
  when `x` no longer exists.
* `cmds.error(...)` raises a `RuntimeError` in Python.
* `cmds.file(path, open=True, force=True)` replaces the current scene
  by the file contents.
* `cmds.skinCluster(mesh, query=True, influence=True)` raises when the
  mesh cannot be found or carries no skin cluster.
* `MDagPath.hasFn(kMesh) && hasFn(kTransform)` characterises a
  transform carrying a mesh shape, modelled as the node kind `meshT`.
Python exceptions are modelled by `Except String`.
-/

namespace FbxBatch

/-- Node kinds distinguished by the script's `hasFn` checks. -/
inductive Kind where
  | transform
  | joint
  | meshT
  | other
deriving DecidableEq

/-- A full DAG path, root first: `"|A|B"` is `["A", "B"]`. -/
abbrev DagPath := List String

/-- A Maya object name as the script manipulates it: either a full
path string (starts with a pipe) or a partial name. -/
inductive NodeName where
  | abs (segs : DagPath)
  | rel (segs : List String)
deriving DecidableEq

/-- A DAG node: its full path and its kind. -/
structure SceneNode where
  path : DagPath
  kind : Kind
deriving DecidableEq

/-- A scene: the DAG nodes plus the read-only skin binding
(`skinCluster -influence` query results, keyed by mesh path). -/
structure Scene where
  nodes : List SceneNode
  skin : List (DagPath × List NodeName)
deriving DecidableEq

def scenePaths (sc : Scene) : List DagPath := sc.nodes.map (·.path)

/-- Name resolution, as `MSelectionList.add` / `cmds.ls` perform it: a
full path matches the node with exactly that path, a partial name
matches every node whose path ends with its segments. -/
def resolveAll (sc : Scene) (n : NodeName) : List DagPath :=
  match n with
  | .abs p => if p ∈ scenePaths sc then [p] else []
  | .rel segs => (scenePaths sc).filter (fun q => segs.isSuffixOf q)

/-- Whether a node with path `p` of joint kind exists. -/
def jointAt (sc : Scene) (p : DagPath) : Bool :=
  sc.nodes.any (fun nd => nd.path == p && nd.kind == Kind.joint)

/-- Full paths of all strict descendants of `p`
(`listRelatives(p, ad=True, fullPath=True)`). -/
def strictDescendantPaths (sc : Scene) (p : DagPath) : List DagPath :=
  (sc.nodes.filter (fun nd => decide (p <+: nd.path ∧ nd.path ≠ p))).map (·.path)

/-- Joint-kind strict descendants of `p` — the script's
`cmds.ls(listRelatives(...), long=True, type="joint")`. -/
def jointDescendantPaths (sc : Scene) (p : DagPath) : List DagPath :=
  (sc.nodes.filter
    (fun nd => decide (p <+: nd.path ∧ nd.path ≠ p) && nd.kind == Kind.joint)).map (·.path)

/-- The minimal name `listRelatives` (without `fullPath`) prints for
the node at `p`: the short leaf name when unique in the scene,
otherwise the full path. -/
def minimalName (sc : Scene) (p : DagPath) : NodeName :=
  match p.getLast? with
  | none => .abs p
  | some s =>
    if ((scenePaths sc).filter (fun q => q.getLast? == some s)).length == 1
    then .rel [s] else .abs p

def walkErrMsg : String := "Found root joint while searching for start joint"

def lsNoneErr : String := "TypeError: Object None is invalid"

/-- The upward while-loop of `_get_joint_list`: starting from the node
whose reversed path is the argument, follow parent links until `stp`
is reached, collecting the visited full paths root-first.  Reaching a
node with no parent in the scene raises. -/
def walkUpR (sc : Scene) (stp : DagPath) : List String → Except String (List DagPath)
  | [] => .error walkErrMsg
  | [s] =>
    if [s].reverse = stp then .ok [stp] else .error walkErrMsg
  | s :: a :: t =>
    if (s :: a :: t).reverse = stp then .ok [stp]
    else if (a :: t).reverse ∈ scenePaths sc then
      match walkUpR sc stp (a :: t) with
      | .error e => .error e
      | .ok l => .ok (l ++ [(s :: a :: t).reverse])
    else .error walkErrMsg

/-- `_get_joint_list(start_joint, end_joint)`: the chain of joints from
`start_joint` down to `end_joint`, full paths, root first. -/
def getJointList (sc : Scene) (startJ endJ : NodeName) : Except String (List NodeName) :=
  match resolveAll sc startJ with
  | [] => .ok []
  | ps :: _ =>
    match resolveAll sc endJ with
    | [] => .ok []
    | pe :: _ =>
      if ps = pe then .ok [NodeName.abs ps]
      else if strictDescendantPaths sc ps = [] then .error lsNoneErr
      else if pe ∈ jointDescendantPaths sc ps then
        match walkUpR sc ps pe.reverse with
        | .error e => .error e
        | .ok l => .ok (l.map NodeName.abs)
      else .ok []

/-- `_get_root_joint`, fuelled recursion (the fuel only bounds the
upward walk, whose depth is bounded by the scene depth). -/
def getRootJointF (sc : Scene) : Nat → NodeName → Except String NodeName
  | 0, _ => .error "maximum recursion depth exceeded"
  | fuel + 1, n =>
    match resolveAll sc n with
    | [] => .error "No object matches name"
    | p :: _ =>
      if 2 ≤ p.length ∧ jointAt sc p.dropLast = true then
        getRootJointF sc fuel (minimalName sc p.dropLast)
      else .ok n

def sceneDepth (sc : Scene) : Nat :=
  sc.nodes.foldr (fun nd m => max nd.path.length m) 0

/-- `_get_root_joint(start_joint)`: walk joint parents upward and
return the first name with no joint parent. -/
def getRootJoint (sc : Scene) (n : NodeName) : Except String NodeName :=
  getRootJointF sc (sceneDepth sc + 1) n

/-- `cmds.skinCluster(mesh, query=True, influence=True)`. -/
def skinQuery (sc : Scene) (mesh : NodeName) : Except String (List NodeName) :=
  match resolveAll sc mesh with
  | [] => .error "No object matches name"
  | p :: _ =>
    match sc.skin.lookup p with
    | some infs => .ok infs
    | none => .error "no skinCluster found"

/-! ## The partition planner (first loop of `_export_skeletal_mesh_partitions`) -/

/-- A partition entry of `export_data["partitions"]`. -/
structure PartitionSpec where
  enabled : Bool
  skeletal_meshes : Option (List NodeName)
deriving DecidableEq

/-- The slice of `export_data` the partitioning pass reads. -/
structure ExportData where
  partitions : List (String × PartitionSpec)
deriving DecidableEq

/-- One entry of `partitions_data`: chosen root and final hierarchy. -/
structure PartitionPlan where
  root : NodeName
  hierarchy : List NodeName
deriving DecidableEq

/-- `joint_hierarchy`: an insertion-ordered dict from candidate root
to its accumulated induced hierarchy. -/
abbrev JHier := List (NodeName × List NodeName)

/-- The inner `for hierarchy_jnt in jnt_hierarchy: if not in: append`
loop — ordered union without duplicates. -/
def mergeChain (acc : List NodeName) (chain : List NodeName) : List NodeName :=
  chain.foldl (fun a j => if j ∈ a then a else a ++ [j]) acc

/-- `joint_hierarchy.setdefault(jnt_root, list())`. -/
def jhSetdefault (jh : JHier) (root : NodeName) : JHier :=
  if root ∈ jh.map Prod.fst then jh else jh ++ [(root, [])]

/-- Merge a chain into the entry of `root`. -/
def jhMerge (jh : JHier) (root : NodeName) (chain : List NodeName) : JHier :=
  jh.map (fun rv => if rv.1 = root then (rv.1, mergeChain rv.2 chain) else rv)

/-- The `for inf_jnt in influences` loop for one candidate root. -/
def chainFold (sc : Scene) (root : NodeName) :
    List NodeName → JHier → Except String JHier
  | [], jh => .ok jh
  | inf :: infs, jh =>
    match getJointList sc root inf with
    | .error e => .error e
    | .ok chain => chainFold sc root infs (jhMerge jh root chain)

/-- The `for jnt_root in jnt_roots` loop for one mesh. -/
def rootsFold (sc : Scene) (infs : List NodeName) :
    List NodeName → JHier → Except String JHier
  | [], jh => .ok jh
  | root :: roots, jh =>
    match chainFold sc root infs (jhSetdefault jh root) with
    | .error e => .error e
    | .ok jh' => rootsFold sc infs roots jh'

/-- The `for mesh in meshes` loop. -/
def meshFold (sc : Scene) (roots : List NodeName) :
    List NodeName → JHier → Except String JHier
  | [], jh => .ok jh
  | mesh :: meshes, jh =>
    match skinQuery sc mesh with
    | .error e => .error e
    | .ok infs =>
      match rootsFold sc infs roots jh with
      | .error e => .error e
      | .ok jh' => meshFold sc roots meshes jh'

/-- One step of the shortest-hierarchy selection loop
(`if total_joints <= 0: continue`, take the first non-empty hierarchy,
then replace only on strictly smaller length). -/
def selectStep (acc : Option (NodeName × List NodeName)) (rh : NodeName × List NodeName) :
    Option (NodeName × List NodeName) :=
  if rh.2.length = 0 then acc
  else
    match acc with
    | none => some rh
    | some cur => if rh.2.length < cur.2.length then some rh else some cur

def selectShortAux (acc : Option (NodeName × List NodeName)) :
    List (NodeName × List NodeName) → Option (NodeName × List NodeName)
  | [] => acc
  | rh :: rest => selectShortAux (selectStep acc rh) rest

/-- The whole selection loop over `joint_hierarchy.items()`. -/
def selectShort (l : JHier) : Option (NodeName × List NodeName) :=
  selectShortAux none l

/-- Step 4.5.6: `root_jnt = _get_root_joint(short_hierarchy[0])`; if it
is not in the hierarchy, prepend `_get_joint_list(root_jnt,
short_hierarchy[0])`. -/
def extendToRoot (sc : Scene) (h : List NodeName) : Except String (List NodeName) :=
  match h with
  | [] => .error "IndexError: list index out of range"
  | x :: _ =>
    match getRootJoint sc x with
    | .error e => .error e
    | .ok r =>
      if r ∈ h then .ok h
      else
        match getJointList sc r x with
        | .error e => .error e
        | .ok ph => .ok (ph ++ h)

def noneIterErr : String := "TypeError: NoneType object is not iterable"

/-- The body of the planning loop for one `(partition_name, data)`
pair, appending to `partitions_data`. -/
def processPartition (sc : Scene) (roots : List NodeName)
    (acc : List (String × Option PartitionPlan)) (name : String) (spec : PartitionSpec) :
    Except String (List (String × Option PartitionPlan)) :=
  if spec.enabled then
    match spec.skeletal_meshes with
    | none => .error noneIterErr
    | some meshes =>
      match meshFold sc roots meshes [] with
      | .error e => .error e
      | .ok jh =>
        match selectShort jh with
        | none => .ok (acc ++ [(name, none)])
        | some rh =>
          match extendToRoot sc rh.2 with
          | .error e => .error e
          | .ok h' => .ok (acc ++ [(name, some ⟨rh.1, h'⟩)])
  else .ok acc

/-- The planning loop over `partitions.items()`. -/
def planFold (sc : Scene) (roots : List NodeName) :
    List (String × PartitionSpec) → List (String × Option PartitionPlan) →
    Except String (List (String × Option PartitionPlan))
  | [], acc => .ok acc
  | (name, spec) :: rest, acc =>
    match processPartition sc roots acc name spec with
    | .error e => .error e
    | .ok acc' => planFold sc roots rest acc'

/-- `partitions_data` as computed by the first loop. -/
def planPartitions (sc : Scene) (roots : List NodeName) (ed : ExportData) :
    Except String (List (String × Option PartitionPlan)) :=
  planFold sc roots ed.partitions []

/-! ## The partition executor (second loop) -/

/-- What the executor needs for one partition: `partition_meshes` (the
raw spec list) and `partition_joints` (the plan hierarchy). -/
structure ExecTask where
  meshes : List NodeName
  joints : List NodeName
deriving DecidableEq

/-- `cmds.delete(p)`: removes the node and its subtree, raising when
the node no longer exists. -/
def deleteNode (p : DagPath) (sc : Scene) : Except String Scene :=
  if p ∈ scenePaths sc then
    .ok { sc with nodes := sc.nodes.filter (fun nd => decide (¬ p <+: nd.path)) }
  else .error "No object matches name"

/-- Breadth-first enumeration (`MItDag(kBreadthFirst)`) of the full
paths of the nodes of a given kind: by depth level, scene order inside
a level. -/
def bfsPathsOfKind (sc : Scene) (k : Kind) : List DagPath :=
  (((List.range (sceneDepth sc)).map
      (fun d => sc.nodes.filter (fun nd => nd.path.length == d + 1))).flatten.filter
    (fun nd => nd.kind == k)).map (·.path)

/-- A deletion loop: walk the pre-computed enumeration, delete every
node whose full path string is not in the keep list. -/
def phaseFold (keep : List NodeName) : List DagPath → Scene → Except String Scene
  | [], s => .ok s
  | p :: ps, s =>
    if NodeName.abs p ∈ keep then phaseFold keep ps s
    else
      match deleteNode p s with
      | .error e => .error e
      | .ok s' => phaseFold keep ps s'

/-- Mesh deletion pass: enumerate all mesh transforms, then delete the
ones not in `partition_meshes`, in enumeration order. -/
def meshPhase (sc : Scene) (meshNames : List NodeName) : Except String Scene :=
  phaseFold meshNames (bfsPathsOfKind sc Kind.meshT) sc

/-- Joint deletion pass: enumerate all joints of the current scene,
then delete the ones not in `partition_joints`, in reverse enumeration
order. -/
def jointPhase (sc : Scene) (jointNames : List NodeName) : Except String Scene :=
  phaseFold jointNames (bfsPathsOfKind sc Kind.joint).reverse sc

/-- Both deletion passes run on the freshly loaded snapshot. -/
def deletePhases (snap : Scene) (t : ExecTask) : Except String Scene :=
  match meshPhase snap t.meshes with
  | .error e => .error e
  | .ok s1 => jointPhase s1 t.joints

def exportErrMsg (name : String) : String :=
  "Something wrong happened while export Partition " ++ name

/-- The executor loop.  `snap` is the conditioned snapshot file, the
`Scene` argument is the live scene left by the previous iteration;
`cmds.file(scene_path, open=True, force=True)` replaces it by `snap`
at the top of every iteration.  `exportOk` says whether the external
FBX export of a partition succeeds.  Returns the list of partition
names whose FBX file was written, and the pending exception if the
loop aborted: an export failure is caught but re-raised by
`cmds.error`, which terminates the loop. -/
def runPartitions (snap : Scene) (exportOk : String → Bool) :
    Scene → List (String × Option ExecTask) → List String × Option String
  | _, [] => ([], none)
  | cur, (_, none) :: rest => runPartitions snap exportOk cur rest
  | _, (name, some t) :: rest =>
    match deletePhases snap t with
    | .error e => ([], some e)
    | .ok s2 =>
      if exportOk name then
        match runPartitions snap exportOk s2 rest with
        | (ws, err) => (name :: ws, err)
      else ([], some (exportErrMsg name))

/-- Rebuild the executor inputs from `partitions_data` plus the raw
spec (`partitions.get(name).get("skeletal_meshes")`). -/
def tasksOf (ed : ExportData) (pdata : List (String × Option PartitionPlan)) :
    List (String × Option ExecTask) :=
  pdata.map (fun e =>
    (e.1, e.2.map (fun plan =>
      { meshes := ((ed.partitions.lookup e.1).bind (fun sp => sp.skeletal_meshes)).getD []
        joints := plan.hierarchy })))

/-- `_export_skeletal_mesh_partitions`: plan, then execute.  Returns
the partition FBX files written and the uncaught exception, if any. -/
def exportSkeletalMeshPartitions (sc : Scene) (roots : List NodeName) (ed : ExportData)
    (exportOk : String → Bool) : List String × Option String :=
  match ed.partitions with
  | [] => ([], none)
  | _ :: _ =>
    match planFold sc roots ed.partitions [] with
    | .error e => ([], some e)
    | .ok pdata => runPartitions sc exportOk sc (tasksOf ed pdata)

/-! ## Scene conditioning: `_parent_to_root`, `_cleanup_stale_dag_hierarchies` -/

def selAddErr : String := "kInvalidParameter: Object does not exist"

/-- `cmds.parent(p, world=True)`: move the subtree of `p` under the
world root. -/
def reparentToWorld (sc : Scene) (p : DagPath) : Scene :=
  { sc with
    nodes := sc.nodes.map (fun nd =>
      if decide (p <+: nd.path) then { nd with path := nd.path.drop (p.length - 1) }
      else nd) }

/-- `_parent_to_root(name)`: `MSelectionList.add` (raises on a miss),
return when several matches or when the parent is already the world,
otherwise reparent. -/
def parentToRoot (sc : Scene) (n : NodeName) : Except String Scene :=
  match resolveAll sc n with
  | [] => .error selAddErr
  | p :: rest =>
    if rest ≠ [] then .ok sc
    else if p.length = 1 then .ok sc
    else .ok (reparentToWorld sc p)

/-- Full paths of the direct children of the world root
(`_get_dag_objects_under_scene_root`). -/
def topLevelPaths (sc : Scene) : List DagPath :=
  (sc.nodes.filter (fun nd => nd.path.length == 1)).map (·.path)

def listRemoveErr : String := "ValueError: list.remove(x): x not in list"

/-- Python `list.remove`: drop the first occurrence, raise when the
element is absent. -/
def listRemove (l : List DagPath) (x : DagPath) : Except String (List DagPath) :=
  if x ∈ l then .ok (l.erase x) else .error listRemoveErr

/-- `"|" + i_o` for a keep name: a partial name gains a leading pipe
and becomes a full path; a name already holding a full path becomes a
double-pipe string that matches no full path. -/
def pipName (n : NodeName) : Option DagPath :=
  match n with
  | .rel segs => some segs
  | .abs _ => none

/-- The guarded `obj_names.remove(pipped_io)` for one keep name: a miss
is caught and skipped. -/
def tryRemoveKeep (l : List DagPath) (n : NodeName) : List DagPath :=
  match pipName n with
  | none => l
  | some p => if p ∈ l then l.erase p else l

/-- `MDagModifier.deleteNode` on an existing top-level node: remove the
subtree (no existence check needed here). -/
def deleteSubtree (sc : Scene) (p : DagPath) : Scene :=
  { sc with nodes := sc.nodes.filter (fun nd => decide (¬ p <+: nd.path)) }

/-- `_cleanup_stale_dag_hierarchies(ignore_objects)`: remove the fixed
camera list from the top-level enumeration with bare `list.remove`
(raises on a miss), remove the keep names guarded by `try`, then
delete every remaining top-level hierarchy. -/
def cleanupStale (sc : Scene) (keeps : List NodeName) : Except String Scene :=
  match listRemove (topLevelPaths sc) ["persp"] with
  | .error e => .error e
  | .ok o1 =>
    match listRemove o1 ["top"] with
    | .error e => .error e
    | .ok o2 =>
      match listRemove o2 ["front"] with
      | .error e => .error e
      | .ok o3 =>
        match listRemove o3 ["side"] with
        | .error e => .error e
        | .ok o4 =>
          let o5 := keeps.foldl tryRemoveKeep o4
          .ok (o5.foldl deleteSubtree sc)

/-! ## Namespace normalisation: `_clean_namespaces`, `_remove_namespace`

Dependency-graph names are modelled structurally: a node name is its
namespace path (the colon-separated prefix segments) plus a base name.
A namespace exists in the scene when some node carries it. -/

/-- A dependency-node name: namespace path plus base name. -/
structure DGNode where
  ns : List String
  base : String
deriving DecidableEq

def reservedNs : List String := ["UI", "shared", "root"]

/-- `om.MNamespace.getNamespaces()`: the top-level namespaces present,
first-appearance order, no duplicates. -/
def topNamespaces (s : List DGNode) : List String :=
  (s.filterMap (·.ns.head?)).dedup

/-- `_get_scene_namespaces`: drop each reserved namespace when
present. -/
def sceneNamespacesOf (s : List DGNode) : List String :=
  reservedNs.foldl (fun sp r => if r ∈ sp then sp.erase r else sp) (topNamespaces s)

/-- `_remove_namespace(mobj)`: `dg.setName(name[len(dg.namespace):])`
— strip the namespace, keep the base name. -/
def removeNamespace (n : DGNode) : DGNode :=
  { ns := [], base := n.base }

/-- Strip every node living in top-level namespace `nsp` (covering all
child namespaces, as the recursive `getNamespaces(namespace, True)`
enumeration does). -/
def stripTopNamespace (nsp : String) (s : List DGNode) : List DGNode :=
  s.map (fun n => if n.ns.head? == some nsp then removeNamespace n else n)

/-- `_clean_namespaces()`. -/
def cleanNamespaces (s : List DGNode) : List DGNode :=
  (sceneNamespacesOf s).foldl (fun acc nsp => stripTopNamespace nsp acc) s

/-! ## Helper lemmas -/

theorem mem_of_getLastq {α : Type} {l : List α} {a : α} (h : l.getLast? = some a) : a ∈ l := by
  induction l with
  | nil => simp at h
  | cons b t ih =>
    match t with
    | [] => simp at h; simp [h]
    | c :: u =>
      rw [List.getLast?_cons_cons] at h
      exact List.mem_cons_of_mem _ (ih h)

theorem getLastq_map {α β : Type} (f : α → β) (l : List α) :
    (l.map f).getLast? = (l.getLast?).map f := by
  rw [List.getLast?_eq_head?_reverse, List.getLast?_eq_head?_reverse, ← List.map_reverse,
    List.head?_map]

/-- The executor never reads the scene state left behind by a previous
iteration: every iteration starts by reloading the snapshot, so the
carried scene is irrelevant to the result. -/
theorem runPartitions_state (snap : Scene) (ok : String → Bool)
    (ts : List (String × Option ExecTask)) :
    ∀ s s', runPartitions snap ok s ts = runPartitions snap ok s' ts := by
  induction ts with
  | nil => intro s s'; rfl
  | cons h rest ih =>
    intro s s'
    match h with
    | (name, none) => exact ih s s'
    | (name, some t) => rfl

/-! ## Concrete scenes used by counterexamples and witnesses -/

/-- Root→Spine→Hand skeleton with mesh `Glove` skinned to `Hand`; the
caller nominates `Spine` (a short name) as single candidate root. -/
def c1Scene : Scene :=
  { nodes := [⟨["Root"], .joint⟩, ⟨["Root", "Spine"], .joint⟩,
              ⟨["Root", "Spine", "Hand"], .joint⟩, ⟨["Glove"], .meshT⟩]
    skin := [(["Glove"], [.abs ["Root", "Spine", "Hand"]])] }

def c1Ed : ExportData :=
  { partitions := [("P", { enabled := true, skeletal_meshes := some [.abs ["Glove"]] })] }

/-- A scene whose path set is not prefix-closed: joint `|A|B|C` exists
but its parent path `|A|B` does not — a corrupt graph relative to a
chain query from `|A`. -/
def c7Scene : Scene :=
  { nodes := [⟨["A"], .joint⟩, ⟨["A", "B", "C"], .joint⟩, ⟨["G"], .meshT⟩]
    skin := [(["G"], [.abs ["A", "B", "C"]])] }

/-- Two unrelated joints; `R` has no descendants at all. -/
def c8Scene : Scene :=
  { nodes := [⟨["R"], .joint⟩, ⟨["X"], .joint⟩], skin := [] }

/-- Joint `R` with a plain transform child, and an unrelated joint. -/
def c8WScene : Scene :=
  { nodes := [⟨["R"], .joint⟩, ⟨["R", "T"], .transform⟩, ⟨["X"], .joint⟩], skin := [] }

/-- Joint `|A|B` is in the plan hierarchy but its parent joint `|A` is
not. -/
def c6Snap : Scene := { nodes := [⟨["A"], .joint⟩, ⟨["A", "B"], .joint⟩], skin := [] }

def c6Task : ExecTask := { meshes := [], joints := [.abs ["A", "B"]] }

/-- A snapshot and plan where no member sits below an excluded node. -/
def c6WSnap : Scene :=
  { nodes := [⟨["Root"], .joint⟩, ⟨["Root", "Spine"], .joint⟩, ⟨["Extra"], .joint⟩,
              ⟨["Glove"], .meshT⟩, ⟨["Junk"], .meshT⟩]
    skin := [] }

def c6WTask : ExecTask :=
  { meshes := [.abs ["Glove"]], joints := [.abs ["Root"], .abs ["Root", "Spine"]] }

def c2Snap : Scene := { nodes := [⟨["J"], .joint⟩], skin := [] }

def c2Task : ExecTask := { meshes := [], joints := [.abs ["J"]] }

/-- Export succeeds for every partition except `P1`. -/
def c2Ok : String → Bool := fun n => n != "P1"

/-- Default cameras plus a keep root and one stale hierarchy. -/
def c3Scene : Scene :=
  { nodes := [⟨["persp"], .other⟩, ⟨["top"], .other⟩, ⟨["front"], .other⟩,
              ⟨["side"], .other⟩, ⟨["Root"], .joint⟩, ⟨["Junk"], .other⟩]
    skin := [] }

/-! ## Claim C2 -/

/-- Claim C2, counterexample: export of partition `P1` fails while
`P2`'s export would succeed (`c2Ok "P2" = true`), yet the run ends
with the pending `cmds.error` exception and no partition file at all
is written — `P2` is never processed.  Under the claim the run would
have continued and produced `P2`'s file. -/
theorem claim2_counterexample :
    c2Ok "P2" = true ∧
    runPartitions c2Snap c2Ok c2Snap [("P1", some c2Task), ("P2", some c2Task)] =
      ([], some (exportErrMsg "P1")) :=
  ⟨rfl, rfl⟩

/-- Claim C2, amended: when the export of a partition fails, the
failure is caught and re-reported through `cmds.error` with the
failing partition's name, but `cmds.error` itself raises, so the loop
terminates: the remaining partitions are not processed and no further
file is written. -/
theorem claim2_amended : ∀ (snap : Scene) (ok : String → Bool) (s : Scene) (name : String)
    (t : ExecTask) rest s2,
    deletePhases snap t = .ok s2 → ok name = false →
    runPartitions snap ok s ((name, some t) :: rest) = ([], some (exportErrMsg name)) := by
  intro snap ok s name t rest s2 hdel hok
  show (match deletePhases snap t with
    | .error e => ([], some e)
    | .ok s2 =>
      if ok name then
        match runPartitions snap ok s2 rest with
        | (ws, err) => (name :: ws, err)
      else ([], some (exportErrMsg name))) = ([], some (exportErrMsg name))
  rw [hdel]
  simp [hok]

/-- Claim C2, witness for the amended theorem at a concrete run. -/
theorem claim2_witness :
    deletePhases c2Snap c2Task = .ok c2Snap ∧ c2Ok "P1" = false ∧
    runPartitions c2Snap c2Ok c2Snap [("P1", some c2Task), ("P2", some c2Task)] =
      ([], some (exportErrMsg "P1")) :=
  ⟨rfl, rfl, claim2_amended c2Snap c2Ok c2Snap "P1" c2Task [("P2", some c2Task)] c2Snap rfl rfl⟩

/-! ## Claim C3 -/

/-- Claim C3, counterexample: `_parent_to_root` on a name that does not
resolve raises (`MSelectionList.add` fails) instead of logging and
skipping, contradicting the claim that a resolution miss never
raises. -/
theorem claim3_counterexample :
    parentToRoot { nodes := [], skin := [] } (.rel ["Missing"]) = .error selAddErr := rfl

/-- Claim C3, amended: only the removal of a keep path from the
top-level list is guarded — a miss there is logged and skipped, and
`_cleanup_stale_dag_hierarchies` completes whenever the four default
cameras are present.  Reparenting an unresolvable keep path raises
from `MSelectionList.add`, and removing an absent member of the fixed
camera ignore set raises `ValueError`. -/
theorem claim3_amended :
    (∀ (sc : Scene) (n : NodeName), resolveAll sc n = [] →
      parentToRoot sc n = .error selAddErr) ∧
    (∀ (sc : Scene) (keeps : List NodeName),
      ["persp"] ∈ topLevelPaths sc → ["top"] ∈ topLevelPaths sc →
      ["front"] ∈ topLevelPaths sc → ["side"] ∈ topLevelPaths sc →
      ∃ s', cleanupStale sc keeps = .ok s') ∧
    (∀ (sc : Scene) (keeps : List NodeName), ["persp"] ∉ topLevelPaths sc →
      cleanupStale sc keeps = .error listRemoveErr) := by
  refine ⟨?_, ?_, ?_⟩
  · intro sc n h
    unfold parentToRoot
    rw [h]
  · intro sc keeps h1 h2 h3 h4
    have e1 : listRemove (topLevelPaths sc) ["persp"] =
        .ok ((topLevelPaths sc).erase ["persp"]) := by simp [listRemove, h1]
    have m2 : ["top"] ∈ (topLevelPaths sc).erase ["persp"] :=
      (List.mem_erase_of_ne (by decide)).mpr h2
    have e2 : listRemove ((topLevelPaths sc).erase ["persp"]) ["top"] =
        .ok (((topLevelPaths sc).erase ["persp"]).erase ["top"]) := by simp [listRemove, m2]
    have m3 : ["front"] ∈ ((topLevelPaths sc).erase ["persp"]).erase ["top"] :=
      (List.mem_erase_of_ne (by decide)).mpr ((List.mem_erase_of_ne (by decide)).mpr h3)
    have e3 : listRemove (((topLevelPaths sc).erase ["persp"]).erase ["top"]) ["front"] =
        .ok ((((topLevelPaths sc).erase ["persp"]).erase ["top"]).erase ["front"]) := by
      simp [listRemove, m3]
    have m4 : ["side"] ∈ (((topLevelPaths sc).erase ["persp"]).erase ["top"]).erase ["front"] :=
      (List.mem_erase_of_ne (by decide)).mpr ((List.mem_erase_of_ne (by decide)).mpr
        ((List.mem_erase_of_ne (by decide)).mpr h4))
    have e4 : listRemove ((((topLevelPaths sc).erase ["persp"]).erase ["top"]).erase ["front"])
        ["side"] =
        .ok (((((topLevelPaths sc).erase ["persp"]).erase ["top"]).erase ["front"]).erase
          ["side"]) := by
      simp [listRemove, m4]
    refine ⟨(keeps.foldl tryRemoveKeep
      (((((topLevelPaths sc).erase ["persp"]).erase ["top"]).erase ["front"]).erase
        ["side"])).foldl deleteSubtree sc, ?_⟩
    simp only [cleanupStale, e1, e2, e3, e4]
  · intro sc keeps h
    have e1 : listRemove (topLevelPaths sc) ["persp"] = .error listRemoveErr := by
      simp [listRemove, h]
    simp only [cleanupStale, e1]

/-- Claim C3, witness: the amended behaviours at concrete scenes. -/
theorem claim3_witness :
    parentToRoot { nodes := [], skin := [] } (.rel ["Gone"]) = .error selAddErr ∧
    (∃ s', cleanupStale c3Scene [.rel ["Root"]] = .ok s') ∧
    cleanupStale { nodes := [], skin := [] } [] = .error listRemoveErr :=
  ⟨claim3_amended.1 _ _ rfl,
   claim3_amended.2.1 c3Scene [.rel ["Root"]] (by decide) (by decide) (by decide) (by decide),
   claim3_amended.2.2 _ [] (by decide)⟩

/-! ## Claim C5 -/

/-- Claim C5: per-partition isolation.  First conjunct: the result of
the executor loop never depends on the live scene carried in from
earlier iterations, because every iteration opens the snapshot afresh
before mutating.  Second conjunct: after a partition A completes, the
remaining partitions are processed exactly as if they ran directly on
the pristine snapshot — none of A's deletions is visible to them. -/
theorem claim5_isolation :
    (∀ (snap : Scene) (ok : String → Bool) (ts : List (String × Option ExecTask)) s s',
      runPartitions snap ok s ts = runPartitions snap ok s' ts) ∧
    (∀ (snap : Scene) (ok : String → Bool) (s : Scene) (name : String) (t : ExecTask) rest s2,
      deletePhases snap t = .ok s2 → ok name = true →
      runPartitions snap ok s ((name, some t) :: rest) =
        (name :: (runPartitions snap ok snap rest).1, (runPartitions snap ok snap rest).2)) := by
  constructor
  · exact fun snap ok ts s s' => runPartitions_state snap ok ts s s'
  · intro snap ok s name t rest s2 hdel hok
    show (match deletePhases snap t with
      | .error e => ([], some e)
      | .ok s2 =>
        if ok name then
          match runPartitions snap ok s2 rest with
          | (ws, err) => (name :: ws, err)
        else ([], some (exportErrMsg name))) =
      (name :: (runPartitions snap ok snap rest).1, (runPartitions snap ok snap rest).2)
    rw [hdel]
    simp only [hok, if_true]
    rw [runPartitions_state snap ok rest s2 snap]

/-- Claim C5, witness: partition `P1` succeeds and deletes everything
outside its plan; `P2` is still processed from the snapshot. -/
theorem claim5_witness :
    deletePhases c2Snap c2Task = .ok c2Snap ∧ c2Ok "P2" = true ∧
    runPartitions c2Snap c2Ok { nodes := [], skin := [] }
        [("P2", some c2Task), ("P1", some c2Task)] =
      ("P2" :: (runPartitions c2Snap c2Ok c2Snap [("P1", some c2Task)]).1,
        (runPartitions c2Snap c2Ok c2Snap [("P1", some c2Task)]).2) :=
  ⟨rfl, rfl,
   claim5_isolation.2 c2Snap c2Ok { nodes := [], skin := [] } "P2" c2Task
     [("P1", some c2Task)] c2Snap rfl rfl⟩

/-! ## Claim C8 -/

/-- Claim C8, counterexample: `r = |R` is a leaf joint (no descendants
at all) and `j = |X` is unrelated; `_get_joint_list` raises the
`cmds.ls(None)` `TypeError` instead of returning the empty chain as a
value. -/
theorem claim8_counterexample :
    getJointList c8Scene (.abs ["R"]) (.abs ["X"]) = .error lsNoneErr := rfl

/-- Claim C8, amended: for resolvable distinct joints, when the end
joint is not among the Joint-kind descendants of the start joint the
chain is empty and returned as a value — provided the start joint has
at least one descendant of any kind; when it has none,
`listRelatives` yields `None` and `cmds.ls(None)` raises. -/
theorem claim8_amended : ∀ (sc : Scene) (s e : NodeName) ps pe t1 t2,
    resolveAll sc s = ps :: t1 → resolveAll sc e = pe :: t2 → ps ≠ pe →
    strictDescendantPaths sc ps ≠ [] → pe ∉ jointDescendantPaths sc ps →
    getJointList sc s e = .ok [] := by
  intro sc s e ps pe t1 t2 h1 h2 h3 h4 h5
  simp only [getJointList, h1, h2]
  rw [if_neg h3, if_neg h4, if_neg h5]

/-- Claim C8, witness: `R` has a (non-joint) descendant, `X` is
unrelated, and the chain comes back as the empty list. -/
theorem claim8_witness :
    getJointList c8WScene (.abs ["R"]) (.abs ["X"]) = .ok [] :=
  claim8_amended c8WScene (.abs ["R"]) (.abs ["X"]) ["R"] ["X"] [] [] rfl rfl
    (by decide) (by decide) (by decide)

/-! ## Claim C10 -/

theorem planFold_error_of_bad (sc : Scene) (roots : List NodeName) :
    ∀ (l : List (String × PartitionSpec)) acc,
    (∃ p ∈ l, p.2.enabled = true ∧ p.2.skeletal_meshes = none) →
    ∃ e, planFold sc roots l acc = .error e := by
  intro l
  induction l with
  | nil =>
    rintro acc ⟨p, hp, -⟩
    exact absurd hp (List.not_mem_nil p)
  | cons hd rest ih =>
    rintro acc ⟨p, hp, hen, hms⟩
    obtain ⟨name, spec⟩ := hd
    rcases List.mem_cons.mp hp with heq | hmem
    · subst heq
      simp only at hen hms
      refine ⟨noneIterErr, ?_⟩
      simp [planFold, processPartition, hen, hms]
    · cases hpp : processPartition sc roots acc name spec with
      | error e => exact ⟨e, by simp only [planFold, hpp]⟩
      | ok acc' =>
        obtain ⟨e, he⟩ := ih acc' ⟨p, hmem, hen, hms⟩
        exact ⟨e, by simp only [planFold, hpp, he]⟩

/-- Claim C10: an enabled partition whose spec lacks the
`skeletal_meshes` key makes the planner iterate `None`; the resulting
`TypeError` is not caught, the partitioning pass aborts, and no
partition file is written. -/
theorem claim10_missing_meshes_aborts :
    ∀ (sc : Scene) (roots : List NodeName) (ed : ExportData) (ok : String → Bool),
    (∃ p ∈ ed.partitions, p.2.enabled = true ∧ p.2.skeletal_meshes = none) →
    ∃ e, exportSkeletalMeshPartitions sc roots ed ok = ([], some e) := by
  intro sc roots ed ok hbad
  obtain ⟨e, he⟩ := planFold_error_of_bad sc roots ed.partitions [] hbad
  refine ⟨e, ?_⟩
  obtain ⟨p, hp, -⟩ := hbad
  cases hparts : ed.partitions with
  | nil => rw [hparts] at hp; exact absurd hp (List.not_mem_nil p)
  | cons hd tl =>
    unfold exportSkeletalMeshPartitions
    rw [hparts]
    rw [hparts] at he
    rw [he]

/-- Claim C10, witness: a single enabled partition without a mesh
list. -/
theorem claim10_witness :
    ∃ e, exportSkeletalMeshPartitions { nodes := [], skin := [] } []
      { partitions := [("P", { enabled := true, skeletal_meshes := none })] }
      (fun _ => true) = ([], some e) :=
  claim10_missing_meshes_aborts { nodes := [], skin := [] } []
    { partitions := [("P", { enabled := true, skeletal_meshes := none })] } (fun _ => true)
    ⟨("P", { enabled := true, skeletal_meshes := none }), List.mem_cons_self _ _, rfl, rfl⟩

/-! ## Claim C4 -/

theorem selectShortAux_spec : ∀ (rest : List (NodeName × List NodeName))
    (c : NodeName × List NodeName), c.2 ≠ [] →
    (selectShortAux (some c) rest = some c ∧
      ∀ rh ∈ rest, rh.2 = [] ∨ c.2.length ≤ rh.2.length) ∨
    (∃ l₁ d l₂, rest = l₁ ++ d :: l₂ ∧ selectShortAux (some c) rest = some d ∧ d.2 ≠ [] ∧
      d.2.length < c.2.length ∧ (∀ rh ∈ l₁, rh.2 = [] ∨ d.2.length < rh.2.length) ∧
      (∀ rh ∈ l₂, rh.2 = [] ∨ d.2.length ≤ rh.2.length)) := by
  intro rest
  induction rest with
  | nil => intro c hc; left; exact ⟨rfl, by simp⟩
  | cons rh rest ih =>
    intro c hc
    by_cases h0 : rh.2.length = 0
    · have hrw : selectShortAux (some c) (rh :: rest) = selectShortAux (some c) rest := by
        simp [selectShortAux, selectStep, h0]
      rcases ih c hc with ⟨he, hall⟩ | ⟨l₁, d, l₂, heq, he, hd, hdc, hl1, hl2⟩
      · left
        refine ⟨by rw [hrw]; exact he, ?_⟩
        intro x hx
        rcases List.mem_cons.mp hx with rfl | hx'
        · exact Or.inl (List.length_eq_zero.mp h0)
        · exact hall x hx'
      · right
        refine ⟨rh :: l₁, d, l₂, by simp [heq], by rw [hrw]; exact he, hd, hdc, ?_, hl2⟩
        intro x hx
        rcases List.mem_cons.mp hx with rfl | hx'
        · exact Or.inl (List.length_eq_zero.mp h0)
        · exact hl1 x hx'
    · have hrne : rh.2 ≠ [] := fun hh => h0 (by rw [hh]; rfl)
      by_cases hlt : rh.2.length < c.2.length
      · have hrw : selectShortAux (some c) (rh :: rest) = selectShortAux (some rh) rest := by
          simp [selectShortAux, selectStep, h0, hlt]
        rcases ih rh hrne with ⟨he, hall⟩ | ⟨l₁, d, l₂, heq, he, hd, hdc, hl1, hl2⟩
        · right
          exact ⟨[], rh, rest, rfl, by rw [hrw]; exact he, hrne, hlt, by simp, hall⟩
        · right
          refine ⟨rh :: l₁, d, l₂, by simp [heq], by rw [hrw]; exact he, hd,
            Nat.lt_trans hdc hlt, ?_, hl2⟩
          intro x hx
          rcases List.mem_cons.mp hx with rfl | hx'
          · exact Or.inr hdc
          · exact hl1 x hx'
      · have hle : c.2.length ≤ rh.2.length := Nat.le_of_not_lt hlt
        have hrw : selectShortAux (some c) (rh :: rest) = selectShortAux (some c) rest := by
          simp [selectShortAux, selectStep, h0, hlt]
        rcases ih c hc with ⟨he, hall⟩ | ⟨l₁, d, l₂, heq, he, hd, hdc, hl1, hl2⟩
        · left
          refine ⟨by rw [hrw]; exact he, ?_⟩
          intro x hx
          rcases List.mem_cons.mp hx with rfl | hx'
          · exact Or.inr hle
          · exact hall x hx'
        · right
          refine ⟨rh :: l₁, d, l₂, by simp [heq], by rw [hrw]; exact he, hd, hdc, ?_, hl2⟩
          intro x hx
          rcases List.mem_cons.mp hx with rfl | hx'
          · exact Or.inr (Nat.lt_of_lt_of_le hdc hle)
          · exact hl1 x hx'

/-- Claim C4: the selection loop picks the first candidate whose
induced hierarchy is non-empty and of minimal size — every earlier
candidate is empty or strictly larger, every later candidate is empty
or at least as large. -/
theorem claim4_minimality : ∀ (l : JHier), (∃ rh ∈ l, rh.2 ≠ []) →
    ∃ l₁ c l₂, l = l₁ ++ c :: l₂ ∧ selectShort l = some c ∧ c.2 ≠ [] ∧
      (∀ rh ∈ l₁, rh.2 = [] ∨ c.2.length < rh.2.length) ∧
      (∀ rh ∈ l₂, rh.2 = [] ∨ c.2.length ≤ rh.2.length) := by
  intro l
  induction l with
  | nil =>
    rintro ⟨p, hp, -⟩
    exact absurd hp (List.not_mem_nil p)
  | cons rh rest ih =>
    intro hex
    by_cases h0 : rh.2.length = 0
    · have hrw : selectShort (rh :: rest) = selectShort rest := by
        simp [selectShort, selectShortAux, selectStep, h0]
      have hex' : ∃ p ∈ rest, p.2 ≠ [] := by
        obtain ⟨p, hp, hpne⟩ := hex
        rcases List.mem_cons.mp hp with rfl | hp'
        · exact absurd (List.length_eq_zero.mp h0) hpne
        · exact ⟨p, hp', hpne⟩
      obtain ⟨l₁, c, l₂, heq, he, hc, hl1, hl2⟩ := ih hex'
      refine ⟨rh :: l₁, c, l₂, by simp [heq], by rw [hrw]; exact he, hc, ?_, hl2⟩
      intro x hx
      rcases List.mem_cons.mp hx with rfl | hx'
      · exact Or.inl (List.length_eq_zero.mp h0)
      · exact hl1 x hx'
    · have hrne : rh.2 ≠ [] := fun hh => h0 (by rw [hh]; rfl)
      have hrw : selectShort (rh :: rest) = selectShortAux (some rh) rest := by
        simp [selectShort, selectShortAux, selectStep, h0]
      rcases selectShortAux_spec rest rh hrne with ⟨he, hall⟩ |
        ⟨l₁, d, l₂, heq, he, hd, hdc, hl1, hl2⟩
      · exact ⟨[], rh, rest, rfl, by rw [hrw]; exact he, hrne, by simp, hall⟩
      · refine ⟨rh :: l₁, d, l₂, by simp [heq], by rw [hrw]; exact he, hd, ?_, hl2⟩
        intro x hx
        rcases List.mem_cons.mp hx with rfl | hx'
        · exact Or.inr hdc
        · exact hl1 x hx'

/-- Candidate roots with induced hierarchy sizes 5, 3, 3. -/
def c4List : JHier :=
  [(.rel ["r1"], [.rel ["a"], .rel ["b"], .rel ["c"], .rel ["d"], .rel ["e"]]),
   (.rel ["r2"], [.rel ["a"], .rel ["b"], .rel ["c"]]),
   (.rel ["r3"], [.rel ["x"], .rel ["y"], .rel ["z"]])]

/-- Claim C4, witness: on sizes 5-3-3 the selection is the first
size-3 candidate. -/
theorem claim4_witness :
    (∃ rh ∈ c4List, rh.2 ≠ []) ∧
    ∃ l₁ c l₂, c4List = l₁ ++ c :: l₂ ∧ selectShort c4List = some c ∧ c.2 ≠ [] ∧
      (∀ rh ∈ l₁, rh.2 = [] ∨ c.2.length < rh.2.length) ∧
      (∀ rh ∈ l₂, rh.2 = [] ∨ c.2.length ≤ rh.2.length) :=
  ⟨by decide, claim4_minimality c4List (by decide)⟩

/-! ## Claim C9 -/

theorem foldStrip_chars : ∀ (L : List String) (s : List DGNode) n,
    n ∈ L.foldl (fun acc nsp => stripTopNamespace nsp acc) s →
    n.ns.head? = none ∨ ∃ m ∈ s, n = m ∧ ∀ h, n.ns.head? = some h → h ∉ L := by
  intro L
  induction L with
  | nil =>
    intro s n hn
    exact Or.inr ⟨n, hn, rfl, fun h _ => List.not_mem_nil h⟩
  | cons nsp L' ih =>
    intro s n hn
    rw [List.foldl_cons] at hn
    rcases ih (stripTopNamespace nsp s) n hn with hnone | ⟨m', hm', rfl, hL'⟩
    · exact Or.inl hnone
    · obtain ⟨m, hm, hmeq⟩ := List.mem_map.mp hm'
      by_cases hcond : m.ns.head? == some nsp
      · left
        have hrm : n = removeNamespace m := by rw [← hmeq]; simp [hcond]
        rw [hrm]
        rfl
      · right
        have hm'm : n = m := by rw [← hmeq]; simp [hcond]
        subst hm'm
        refine ⟨n, hm, rfl, ?_⟩
        intro h hh hmemL
        rcases List.mem_cons.mp hmemL with rfl | hmem'
        · exact hcond (beq_iff_eq.mpr hh)
        · exact hL' h hh hmem'

theorem mem_foldl_erase : ∀ (rs l : List String) x, x ∈ l → x ∉ rs →
    x ∈ rs.foldl (fun sp r => if r ∈ sp then sp.erase r else sp) l := by
  intro rs
  induction rs with
  | nil => intro l x hx _; exact hx
  | cons r rs' ih =>
    intro l x hx hnr
    rw [List.foldl_cons]
    have hxr : x ≠ r := fun hh => hnr (hh ▸ List.mem_cons_self r rs')
    have hx' : x ∈ (if r ∈ l then l.erase r else l) := by
      split
      · exact (List.mem_erase_of_ne hxr).mpr hx
      · exact hx
    exact ih _ x hx' (fun hmm => hnr (List.mem_cons_of_mem r hmm))

theorem foldl_erase_nil : ∀ (rs l : List String), l.Nodup → (∀ x ∈ l, x ∈ rs) →
    rs.foldl (fun sp r => if r ∈ sp then sp.erase r else sp) l = [] := by
  intro rs
  induction rs with
  | nil =>
    intro l _ hsub
    exact List.eq_nil_iff_forall_not_mem.mpr (fun a ha => List.not_mem_nil a (hsub a ha))
  | cons r rs' ih =>
    intro l hnd hsub
    rw [List.foldl_cons]
    by_cases hr : r ∈ l
    · rw [if_pos hr]
      apply ih _ (hnd.erase r)
      intro x hx
      rcases (hnd.mem_erase_iff).mp hx with ⟨hne, hxl⟩
      rcases List.mem_cons.mp (hsub x hxl) with rfl | h'
      · exact absurd rfl hne
      · exact h'
    · rw [if_neg hr]
      apply ih _ hnd
      intro x hx
      rcases List.mem_cons.mp (hsub x hx) with rfl | h'
      · exact absurd hx hr
      · exact h'

/-- Claim C9: on a graph with no non-reserved namespaces the
normaliser enumerates zero namespaces and changes nothing; stripping
leaves a name with no namespace unchanged; and running the normaliser
twice equals running it once. -/
theorem claim9_idempotent :
    (∀ s : List DGNode, sceneNamespacesOf s = [] → cleanNamespaces s = s) ∧
    (∀ n : DGNode, n.ns = [] → removeNamespace n = n) ∧
    (∀ s : List DGNode, cleanNamespaces (cleanNamespaces s) = cleanNamespaces s) := by
  have hzero : ∀ s : List DGNode, sceneNamespacesOf s = [] → cleanNamespaces s = s := by
    intro s h
    unfold cleanNamespaces
    rw [h]
    rfl
  refine ⟨hzero, ?_, ?_⟩
  · intro n h
    cases n
    simp only [removeNamespace]
    simp_all
  · intro s
    apply hzero
    unfold sceneNamespacesOf
    apply foldl_erase_nil
    · exact List.nodup_dedup _
    · intro x hx
      rw [topNamespaces, List.mem_dedup, List.mem_filterMap] at hx
      obtain ⟨n, hn, hhead⟩ := hx
      have hn' : n ∈ (sceneNamespacesOf s).foldl (fun acc nsp => stripTopNamespace nsp acc) s :=
        hn
      rcases foldStrip_chars (sceneNamespacesOf s) s n hn' with hnone | ⟨m, hm, rfl, hnot⟩
      · rw [hnone] at hhead
        cases hhead
      · by_contra hxr
        apply hnot x hhead
        apply mem_foldl_erase
        · exact List.mem_dedup.mpr (List.mem_filterMap.mpr ⟨n, hm, hhead⟩)
        · exact hxr

/-- Claim C9, witness: a stripped graph is a fixed point, a bare name
stays unchanged, and a graph with namespace `ns1` reaches a fixed
point after one run. -/
theorem claim9_witness :
    sceneNamespacesOf [⟨[], "pCube1"⟩] = [] ∧
    cleanNamespaces [⟨[], "pCube1"⟩] = [⟨[], "pCube1"⟩] ∧
    removeNamespace ⟨[], "base"⟩ = ⟨[], "base"⟩ ∧
    cleanNamespaces (cleanNamespaces [⟨["ns1"], "obj"⟩, ⟨[], "keep"⟩]) =
      cleanNamespaces [⟨["ns1"], "obj"⟩, ⟨[], "keep"⟩] :=
  ⟨rfl, claim9_idempotent.1 _ rfl, claim9_idempotent.2.1 _ rfl, claim9_idempotent.2.2 _⟩

/-! ## Claim C6 -/

/-- The full paths of the plan members (hierarchy and mesh set). -/
def memberPaths (t : ExecTask) : List DagPath :=
  (t.joints ++ t.meshes).filterMap (fun n =>
    match n with
    | .abs p => some p
    | .rel _ => none)

theorem deleteNode_ok {p : DagPath} {s s' : Scene} (h : deleteNode p s = .ok s') :
    s'.nodes = s.nodes.filter (fun nd => decide (¬ p <+: nd.path)) := by
  unfold deleteNode at h
  split at h
  · injection h with h
    rw [← h]
  · exact Except.noConfusion h

theorem phaseFold_subset : ∀ (keep : List NodeName) (L : List DagPath) (s s' : Scene),
    phaseFold keep L s = .ok s' → ∀ nd, nd ∈ s'.nodes → nd ∈ s.nodes := by
  intro keep L
  induction L with
  | nil =>
    intro s s' h nd hnd
    unfold phaseFold at h
    injection h with h
    rw [h]
    exact hnd
  | cons p ps ih =>
    intro s s' h nd hnd
    unfold phaseFold at h
    split at h
    · exact ih s s' h nd hnd
    · cases hdel : deleteNode p s with
      | error e => rw [hdel] at h; exact Except.noConfusion h
      | ok s1 =>
        rw [hdel] at h
        have h1 := ih s1 s' h nd hnd
        rw [deleteNode_ok hdel] at h1
        exact (List.mem_filter.mp h1).1

theorem phaseFold_preserves : ∀ (keep : List NodeName) (L : List DagPath) (s s' : Scene) nd,
    phaseFold keep L s = .ok s' → nd ∈ s.nodes →
    (∀ p ∈ L, NodeName.abs p ∉ keep → ¬ p <+: nd.path) → nd ∈ s'.nodes := by
  intro keep L
  induction L with
  | nil =>
    intro s s' nd h hnd _
    unfold phaseFold at h
    injection h with h
    rw [← h]
    exact hnd
  | cons p ps ih =>
    intro s s' nd h hnd hsafe
    unfold phaseFold at h
    split at h
    case isTrue hkeep =>
      exact ih s s' nd h hnd (fun q hq => hsafe q (List.mem_cons_of_mem p hq))
    case isFalse hkeep =>
      cases hdel : deleteNode p s with
      | error e => rw [hdel] at h; exact Except.noConfusion h
      | ok s1 =>
        rw [hdel] at h
        apply ih s1 s' nd h ?_ (fun q hq => hsafe q (List.mem_cons_of_mem p hq))
        rw [deleteNode_ok hdel]
        refine List.mem_filter.mpr ⟨hnd, ?_⟩
        simp only [decide_eq_true_eq]
        exact hsafe p (List.mem_cons_self p ps) hkeep

theorem bfs_mem : ∀ (sc : Scene) (k : Kind) p, p ∈ bfsPathsOfKind sc k →
    ∃ nd ∈ sc.nodes, nd.path = p ∧ nd.kind = k := by
  intro sc k p hp
  unfold bfsPathsOfKind at hp
  obtain ⟨nd, hnd, rfl⟩ := List.mem_map.mp hp
  rcases List.mem_filter.mp hnd with ⟨hnd2, hk⟩
  obtain ⟨l, hl, hndl⟩ := List.mem_flatten.mp hnd2
  obtain ⟨d, hd, rfl⟩ := List.mem_map.mp hl
  rcases List.mem_filter.mp hndl with ⟨hmem, -⟩
  exact ⟨nd, hmem, rfl, by simpa using hk⟩

/-- Claim C6, counterexample: the plan hierarchy holds the joint
`|A|B` but not its parent joint `|A`; reverse-order joint deletion
keeps `|A|B` at its own turn, then deletes `|A`, whose cascade removes
the hierarchy member `|A|B` — the final scene is empty. -/
theorem claim6_counterexample :
    NodeName.abs ["A", "B"] ∈ c6Task.joints ∧
    deletePhases c6Snap c6Task = .ok { nodes := [], skin := [] } :=
  ⟨List.mem_singleton.mpr rfl, rfl⟩

/-- Claim C6, amended: the deletion passes never remove a member of
the plan's hierarchy or mesh set, provided no member lies at or below
an excluded mesh or excluded joint (every mesh or joint ancestor of a
member belongs to the respective kept set). -/
theorem claim6_amended : ∀ (snap : Scene) (t : ExecTask) (s' : Scene),
    (∀ nd ∈ snap.nodes, nd.kind = Kind.meshT → NodeName.abs nd.path ∉ t.meshes →
      ∀ q ∈ memberPaths t, ¬ nd.path <+: q) →
    (∀ nd ∈ snap.nodes, nd.kind = Kind.joint → NodeName.abs nd.path ∉ t.joints →
      ∀ q ∈ memberPaths t, ¬ nd.path <+: q) →
    deletePhases snap t = .ok s' →
    ∀ nd ∈ snap.nodes, nd.path ∈ memberPaths t → nd ∈ s'.nodes := by
  intro snap t s' hm hj hdel nd hnd hmem
  unfold deletePhases at hdel
  cases hmp : meshPhase snap t.meshes with
  | error e => rw [hmp] at hdel; exact Except.noConfusion hdel
  | ok s1 =>
    rw [hmp] at hdel
    unfold meshPhase at hmp
    unfold jointPhase at hdel
    have hnd1 : nd ∈ s1.nodes := by
      apply phaseFold_preserves t.meshes _ snap s1 nd hmp hnd
      intro p hp hpk
      obtain ⟨md, hmd, hpe, hmk⟩ := bfs_mem snap Kind.meshT p hp
      subst hpe
      exact hm md hmd hmk hpk nd.path hmem
    apply phaseFold_preserves t.joints _ s1 s' nd hdel hnd1
    intro p hp hpk
    rw [List.mem_reverse] at hp
    obtain ⟨jd, hjd1, hpe, hjk⟩ := bfs_mem s1 Kind.joint p hp
    subst hpe
    have hjdsnap : jd ∈ snap.nodes := phaseFold_subset t.meshes _ snap s1 hmp jd hjd1
    exact hj jd hjdsnap hjk hpk nd.path hmem

/-- Claim C6, witness: a snapshot where every mesh/joint ancestor of a
member is kept; all three members survive both passes. -/
theorem claim6_witness :
    deletePhases c6WSnap c6WTask =
      .ok { nodes := [⟨["Root"], .joint⟩, ⟨["Root", "Spine"], .joint⟩, ⟨["Glove"], .meshT⟩]
            skin := [] } ∧
    ∀ nd ∈ c6WSnap.nodes, nd.path ∈ memberPaths c6WTask →
      nd ∈ ({ nodes := [⟨["Root"], .joint⟩, ⟨["Root", "Spine"], .joint⟩, ⟨["Glove"], .meshT⟩]
              skin := [] } : Scene).nodes :=
  ⟨rfl, claim6_amended c6WSnap c6WTask _ (by decide) (by decide) rfl⟩

/-! ## Claim C1 -/

theorem walkUpR_shape : ∀ (sc : Scene) (stp : DagPath) (rcur : List String) l,
    walkUpR sc stp rcur = .ok l → l.head? = some stp ∧ l.getLast? = some rcur.reverse := by
  intro sc stp rcur
  induction rcur with
  | nil => intro l h; simp [walkUpR] at h
  | cons s rest ih =>
    intro l h
    cases rest with
    | nil =>
      unfold walkUpR at h
      by_cases heq : ([s] : List String).reverse = stp
      · rw [if_pos heq] at h
        injection h with h
        rw [← h, ← heq]
        exact ⟨rfl, rfl⟩
      · rw [if_neg heq] at h
        exact Except.noConfusion h
    | cons a t =>
      unfold walkUpR at h
      by_cases heq : (s :: a :: t).reverse = stp
      · rw [if_pos heq] at h
        injection h with h
        rw [← h, ← heq]
        exact ⟨rfl, rfl⟩
      · rw [if_neg heq] at h
        by_cases hmem : (a :: t).reverse ∈ scenePaths sc
        · rw [if_pos hmem] at h
          cases hw : walkUpR sc stp (a :: t) with
          | error e => rw [hw] at h; exact Except.noConfusion h
          | ok l0 =>
            rw [hw] at h
            injection h with h
            obtain ⟨ih1, ih2⟩ := ih l0 hw
            constructor
            · rw [← h]
              cases l0 with
              | nil => simp at ih1
              | cons b u =>
                rw [List.cons_append]
                injection ih1 with ih1
                rw [← ih1]
                rfl
            · rw [← h]
              exact List.getLast?_concat _
        · rw [if_neg hmem] at h
          exact Except.noConfusion h

theorem getJointList_shape : ∀ (sc : Scene) (s e : NodeName) l,
    getJointList sc s e = .ok l → l ≠ [] →
    ∃ ps t₁ pe t₂, resolveAll sc s = ps :: t₁ ∧ resolveAll sc e = pe :: t₂ ∧
      l.head? = some (.abs ps) ∧ l.getLast? = some (.abs pe) := by
  intro sc s e l h hne
  cases hr1 : resolveAll sc s with
  | nil =>
    simp only [getJointList, hr1] at h
    injection h with h
    exact absurd h.symm hne
  | cons ps t₁ =>
    cases hr2 : resolveAll sc e with
    | nil =>
      simp only [getJointList, hr1, hr2] at h
      injection h with h
      exact absurd h.symm hne
    | cons pe t₂ =>
      simp only [getJointList, hr1, hr2] at h
      by_cases hpe : ps = pe
      · rw [if_pos hpe] at h
        injection h with h
        refine ⟨ps, t₁, pe, t₂, rfl, rfl, ?_, ?_⟩
        · rw [← h]
          rfl
        · rw [← h, hpe]
          rfl
      · rw [if_neg hpe] at h
        by_cases hdesc : strictDescendantPaths sc ps = []
        · rw [if_pos hdesc] at h
          exact Except.noConfusion h
        · rw [if_neg hdesc] at h
          by_cases hmem : pe ∈ jointDescendantPaths sc ps
          · rw [if_pos hmem] at h
            cases hw : walkUpR sc ps pe.reverse with
            | error e' => rw [hw] at h; exact Except.noConfusion h
            | ok l0 =>
              rw [hw] at h
              injection h with h
              obtain ⟨h1, h2⟩ := walkUpR_shape sc ps pe.reverse l0 hw
              refine ⟨ps, t₁, pe, t₂, rfl, rfl, ?_, ?_⟩
              · rw [← h, List.head?_map, h1]
                rfl
              · rw [← h, getLastq_map, h2, List.reverse_reverse]
                rfl
          · rw [if_neg hmem] at h
            injection h with h
            exact absurd h.symm hne

/-- Claim C1, counterexample: candidate root `Spine` below the true
root `Root`; step 4.5.6 prepends `_get_joint_list(Root, |Root|Spine)`,
which includes its end point, so `|Root|Spine` appears twice in the
emitted plan hierarchy — the hierarchy is not de-duplicated. -/
theorem claim1_counterexample :
    planPartitions c1Scene [.rel ["Spine"]] c1Ed =
      .ok [("P", some { root := .rel ["Spine"]
                        hierarchy := [.abs ["Root"], .abs ["Root", "Spine"],
                          .abs ["Root", "Spine"], .abs ["Root", "Spine", "Hand"]] })] ∧
    ¬ ([NodeName.abs ["Root"], .abs ["Root", "Spine"], .abs ["Root", "Spine"],
        .abs ["Root", "Spine", "Hand"]] : List NodeName).Nodup :=
  ⟨rfl, by decide⟩

/-- Claim C1, amended: after step 4.5.6 the final hierarchy does begin
at the true root of its chosen joint (its head is the resolved path of
the `_get_root_joint` result), but the prepended chain includes the
join point: whenever a non-empty chain is prepended, its last element
equals `hierarchy[0]`, which therefore appears twice — the emitted
hierarchy is not de-duplicated. -/
theorem claim1_amended : ∀ (sc : Scene) (p : DagPath) (rest : List NodeName) h',
    extendToRoot sc (NodeName.abs p :: rest) = .ok h' →
    h' = NodeName.abs p :: rest ∨
    ∃ r ph, getRootJoint sc (NodeName.abs p) = .ok r ∧ r ∉ NodeName.abs p :: rest ∧
      getJointList sc r (NodeName.abs p) = .ok ph ∧ h' = ph ++ NodeName.abs p :: rest ∧
      (ph ≠ [] →
        (∃ pr t, resolveAll sc r = pr :: t ∧ h'.head? = some (NodeName.abs pr)) ∧
        ph.getLast? = some (NodeName.abs p) ∧ ¬ h'.Nodup) := by
  intro sc p rest h' hext
  cases hroot : getRootJoint sc (NodeName.abs p) with
  | error e =>
    simp only [extendToRoot, hroot] at hext
    exact Except.noConfusion hext
  | ok r =>
    simp only [extendToRoot, hroot] at hext
    by_cases hin : r ∈ NodeName.abs p :: rest
    · rw [if_pos hin] at hext
      injection hext with hext
      exact Or.inl hext.symm
    · rw [if_neg hin] at hext
      cases hgl : getJointList sc r (NodeName.abs p) with
      | error e => rw [hgl] at hext; exact Except.noConfusion hext
      | ok ph =>
        rw [hgl] at hext
        injection hext with hext
        right
        refine ⟨r, ph, rfl, hin, hgl, hext.symm, ?_⟩
        intro hne
        obtain ⟨ps, t₁, pe, t₂, hr1, hr2, hh, hl⟩ :=
          getJointList_shape sc r (NodeName.abs p) ph hgl hne
        have hpe : pe = p := by
          simp only [resolveAll] at hr2
          split at hr2
          · injection hr2 with h1 h2
            exact h1.symm
          · exact List.noConfusion hr2
        subst hpe
        refine ⟨⟨ps, t₁, hr1, ?_⟩, hl, ?_⟩
        · rw [← hext]
          cases ph with
          | nil => exact absurd rfl hne
          | cons b u =>
            rw [List.cons_append]
            injection hh with hh
            rw [← hh]
            rfl
        · intro hnod
          rw [← hext] at hnod
          rcases List.nodup_append.mp hnod with ⟨-, -, hdisj⟩
          exact List.disjoint_left.mp hdisj (mem_of_getLastq hl)
            (List.mem_cons_self _ _)

/-- Claim C1, witness: the amended behaviour on the concrete scene —
the prepended chain `[|Root, |Root|Spine]` ends at the join point and
the result holds a duplicate. -/
theorem claim1_witness :
    extendToRoot c1Scene [.abs ["Root", "Spine"], .abs ["Root", "Spine", "Hand"]] =
      .ok [.abs ["Root"], .abs ["Root", "Spine"], .abs ["Root", "Spine"],
           .abs ["Root", "Spine", "Hand"]] ∧
    ([NodeName.abs ["Root"], .abs ["Root", "Spine"], .abs ["Root", "Spine"],
        .abs ["Root", "Spine", "Hand"]] = [NodeName.abs ["Root", "Spine"],
        .abs ["Root", "Spine", "Hand"]] ∨
      ∃ r ph, getRootJoint c1Scene (.abs ["Root", "Spine"]) = .ok r ∧
        r ∉ [NodeName.abs ["Root", "Spine"], .abs ["Root", "Spine", "Hand"]] ∧
        getJointList c1Scene r (.abs ["Root", "Spine"]) = .ok ph ∧
        [NodeName.abs ["Root"], .abs ["Root", "Spine"], .abs ["Root", "Spine"],
          .abs ["Root", "Spine", "Hand"]] =
          ph ++ [NodeName.abs ["Root", "Spine"], .abs ["Root", "Spine", "Hand"]] ∧
        (ph ≠ [] →
          (∃ pr t, resolveAll c1Scene r = pr :: t ∧
            ([NodeName.abs ["Root"], .abs ["Root", "Spine"], .abs ["Root", "Spine"],
              .abs ["Root", "Spine", "Hand"]] : List NodeName).head? =
              some (NodeName.abs pr)) ∧
          ph.getLast? = some (NodeName.abs ["Root", "Spine"]) ∧
          ¬ ([NodeName.abs ["Root"], .abs ["Root", "Spine"], .abs ["Root", "Spine"],
              .abs ["Root", "Spine", "Hand"]] : List NodeName).Nodup)) :=
  ⟨rfl, claim1_amended c1Scene ["Root", "Spine"] [.abs ["Root", "Spine", "Hand"]] _ rfl⟩

/-! ## Claim C7 -/

/-- Claim C7: when the end joint passed the descendant-membership
check yet the upward parent walk runs out of parents before reaching
the start joint (a scene whose path set is corrupt relative to the
query), `_get_joint_list` raises, nothing catches the exception, and
the whole partitioning pass aborts with no file written. -/
theorem claim7_corrupt_walk_aborts : ∀ (sc : Scene) (startN endN meshN : NodeName)
    (ps pe : DagPath) t1 t2 (infs : List NodeName) (msg : String),
    resolveAll sc startN = ps :: t1 →
    resolveAll sc endN = pe :: t2 →
    ps ≠ pe →
    strictDescendantPaths sc ps ≠ [] →
    pe ∈ jointDescendantPaths sc ps →
    walkUpR sc ps pe.reverse = .error msg →
    skinQuery sc meshN = .ok (endN :: infs) →
    getJointList sc startN endN = .error msg ∧
    ∀ (pname : String) (rest : List (String × PartitionSpec)) (ok : String → Bool),
      exportSkeletalMeshPartitions sc [startN]
        { partitions := (pname, { enabled := true, skeletal_meshes := some [meshN] }) :: rest }
        ok = ([], some msg) := by
  intro sc startN endN meshN ps pe t1 t2 infs msg h1 h2 h3 h4 h5 h6 h7
  have hg : getJointList sc startN endN = .error msg := by
    simp only [getJointList, h1, h2]
    rw [if_neg h3, if_neg h4, if_pos h5, h6]
  refine ⟨hg, ?_⟩
  intro pname rest ok
  have hchain : chainFold sc startN (endN :: infs) (jhSetdefault [] startN) = .error msg := by
    simp only [chainFold, hg]
  have hroots : rootsFold sc (endN :: infs) [startN] [] = .error msg := by
    simp only [rootsFold, hchain]
  have hmesh : meshFold sc [startN] [meshN] [] = .error msg := by
    simp only [meshFold, h7, hroots]
  have hpp : processPartition sc [startN] [] pname
      { enabled := true, skeletal_meshes := some [meshN] } = .error msg := by
    simp [processPartition, hmesh]
  have hplan : planFold sc [startN]
      ((pname, { enabled := true, skeletal_meshes := some [meshN] }) :: rest) [] =
      .error msg := by
    simp only [planFold, hpp]
  simp only [exportSkeletalMeshPartitions, hplan]

/-- Claim C7, witness: the corrupt scene `c7Scene` — `|A|B|C` is a
joint descendant of `|A` by full-path enumeration, but the parent walk
dies at the missing `|A|B`; the pass aborts. -/
theorem claim7_witness :
    getJointList c7Scene (.abs ["A"]) (.abs ["A", "B", "C"]) = .error walkErrMsg ∧
    exportSkeletalMeshPartitions c7Scene [.abs ["A"]]
      { partitions := [("P", { enabled := true, skeletal_meshes := some [.abs ["G"]] })] }
      (fun _ => true) = ([], some walkErrMsg) := by
  have h := claim7_corrupt_walk_aborts c7Scene (.abs ["A"]) (.abs ["A", "B", "C"])
    (.abs ["G"]) ["A"] ["A", "B", "C"] [] [] [] walkErrMsg rfl rfl (by decide) (by decide)
    (by decide) rfl rfl
  exact ⟨h.1, h.2 "P" [] (fun _ => true)⟩

end FbxBatch
